import Mathlib

/-!
Verification development for the employee-onboarding tool server.

The development shallowly embeds the two core modules:

* the progress engine (`EmployeeProfile`, `completeStep`, `createNewProfile`,
  `getEmployeeProfile`, `saveEmployeeProfile`, `requestSawDevice`,
  `extractNameFromEmail`), mirroring `src/index.ts` and
  `src/utils/employee-identifier.ts`; and
* the step-content loader (`OnboardingStep`, `parseStepMarkdown`,
  `parseStepHTML`, `loadSteps`, `loadConfiguration`), mirroring the
  markdown-aware `ConfigParser`.

JavaScript objects used as open records (`stepData` entries and the per-step
records inside them) are embedded as association lists with
replace-or-append update, matching property-assignment semantics.
File-system persistence is embedded as an association list from the file
base name (the profile path without the `.json` suffix) to the stored
profile value.  Fields of the parsed step record that no stated property
mentions (description, resources, completionCriteria) are omitted from the
embedding.
-/

namespace Onboarding

/-- Value stored under a key of a free-form JavaScript record: either a
string or the `undefined` value (an assigned property whose value is
`undefined` still exists as a key). -/
inductive JsVal where
  | str : String → JsVal
  | undefined : JsVal
deriving DecidableEq, Repr

/-- Lift an optional string argument to the value actually assigned in the
JavaScript source (`undefined` when absent). -/
def optVal : Option String → JsVal
  | some s => .str s
  | none => .undefined

/-- Association-list update with the semantics of a JavaScript property
assignment: an existing key keeps its position and gets the new value, a
new key is appended at the end. -/
def setA {κ ν : Type} [DecidableEq κ] : List (κ × ν) → κ → ν → List (κ × ν)
  | [], k, v => [(k, v)]
  | (k', v') :: rest, k, v =>
      if k' = k then (k, v) :: rest else (k', v') :: setA rest k v

/-- Association-list lookup (JavaScript property read; `none` plays the
role of `undefined`). -/
def getA {κ ν : Type} [DecidableEq κ] : List (κ × ν) → κ → Option ν
  | [], _ => none
  | (k', v') :: rest, k => if k' = k then some v' else getA rest k

/-- Free-form per-step record (`stepData[id]` in the source): an open set of
string-keyed fields. -/
abbrev JsObj := List (String × JsVal)

/-- Employee profile, mirroring the `EmployeeProfile` interface of
`employee-identifier.ts` (the `metadata` sub-object is inlined). -/
structure EmployeeProfile where
  email : String
  name : String
  startDate : String
  buddyEmail : Option String
  department : Option String
  currentStep : Nat
  completedSteps : List Nat
  stepData : List (Nat × JsObj)
  createdAt : String
  lastUpdated : String
  version : String
deriving DecidableEq, Repr

/-- Parsed onboarding step, mirroring the `OnboardingStep` interface of the
markdown-aware `ConfigParser` (description, resources and
completionCriteria are not needed for the stated properties and are
omitted). -/
structure OnboardingStep where
  id : Nat
  title : String
  type : String
  required : Bool
  content : String
  isMarkdown : Bool
deriving DecidableEq, Repr

/-- Status of a `complete_step` invocation as reported to the caller. -/
inductive CompleteStatus where
  | alreadyCompleted
  | outOfOrder
  | completed
deriving DecidableEq, Repr

/-- Result of `handleCompleteStep`: the reported status, the profile after
the call, whether `saveEmployeeProfile` was invoked, and the id of the
upcoming step when one exists in the configured list. -/
structure CompleteResult where
  status : CompleteStatus
  profile : EmployeeProfile
  persisted : Bool
  nextStep : Option Nat
deriving DecidableEq, Repr

/-- Resolution of the requested step id in `handleCompleteStep`
(`args.stepId || profile.currentStep`): a missing argument and the falsy
value `0` both fall back to the profile's current step. -/
def resolveStepId (sid : Option Nat) (cur : Nat) : Nat :=
  match sid with
  | none => cur
  | some s => if s = 0 then cur else s

/-- Step advancement on success (`src/index.ts` lines 335-337): the id of
the first configured step greater than the completed one
(`allSteps.find(step => step.id > stepToComplete)`), or `stepToComplete + 1`
when none exists. -/
def nextCurrentStep (steps : List OnboardingStep) (s : Nat) : Nat :=
  match steps.find? (fun st => s < st.id) with
  | some st => st.id
  | none => s + 1

/-- Core of `handleCompleteStep` in `src/index.ts`: validate the requested
step (already-completed check first, then out-of-order check), and on
success append it to `completedSteps`, assign a fresh
`{completedAt, notes, data}` record to `stepData[step]`, advance
`currentStep` to the first configured step id greater than the completed
one (or to `step + 1` when none exists) and save the profile.  `steps` is
the configured step list as returned by `getAllSteps`.  `now` stands for
the timestamp taken during the call. -/
def completeStep (steps : List OnboardingStep) (p : EmployeeProfile)
    (sid : Option Nat) (now : String) (notes data : Option String) :
    CompleteResult :=
  let s := resolveStepId sid p.currentStep
  if p.completedSteps.contains s then
    ⟨.alreadyCompleted, p, false, none⟩
  else if s ≠ p.currentStep then
    ⟨.outOfOrder, p, false, none⟩
  else
    let completed' := p.completedSteps ++ [s]
    let stepData' := setA p.stepData s
      [("completedAt", JsVal.str now), ("notes", optVal notes),
       ("data", optVal data)]
    let cur' := nextCurrentStep steps s
    let p' : EmployeeProfile :=
      { p with completedSteps := completed', stepData := stepData',
               currentStep := cur', lastUpdated := now }
    ⟨.completed, p', true, (steps.find? (fun st => st.id = cur')).map (·.id)⟩

/-- ASCII embedding of JavaScript `String.prototype.toLowerCase`. -/
def jsToLower (s : String) : String := String.mk (s.data.map Char.toLower)

/-- JavaScript `s.includes(c)` for a single character (used for the `.`
and `_` checks of the name derivation). -/
def containsChar (s : String) (c : Char) : Bool := s.data.any (· == c)

/-- Split-on-a-character accumulator (JavaScript `s.split(sep)` for a
one-character separator). -/
def splitOnCharAux (c : Char) : List Char → List Char → List String
  | [], acc => [String.mk acc.reverse]
  | x :: xs, acc =>
      if x == c then String.mk acc.reverse :: splitOnCharAux c xs []
      else splitOnCharAux c xs (x :: acc)

/-- JavaScript `s.split(sep)` for a one-character separator. -/
def splitOnChar (c : Char) (s : String) : List String :=
  splitOnCharAux c s.data []

/-- One segment of the derived display name:
`part.charAt(0).toUpperCase() + part.slice(1).toLowerCase()`. -/
def capitalizeSeg (s : String) : String :=
  match s.data with
  | [] => ""
  | c :: rest => String.mk (c.toUpper :: rest.map Char.toLower)

/-- `extractNameFromEmail` from `employee-identifier.ts`: derive a display
name from the email local-part (split on `.` if present, else on `_` if
present, capitalizing each segment; else capitalize the whole part). -/
def extractNameFromEmail (email : String) : String :=
  let localPart := (splitOnChar '@' email).headD ""
  if containsChar localPart '.' then
    String.intercalate " " ((splitOnChar '.' localPart).map capitalizeSeg)
  else if containsChar localPart '_' then
    String.intercalate " " ((splitOnChar '_' localPart).map capitalizeSeg)
  else
    capitalizeSeg localPart

/-- Persisted profile storage: the data directory, as a map from the file
base name (profile path minus the `.json` suffix) to the stored profile. -/
abbrev ProfileStore := List (String × EmployeeProfile)

/-- `saveEmployeeProfile`: refresh `metadata.lastUpdated` and write the
profile under `<profile.email>.json`. -/
def saveEmployeeProfile (store : ProfileStore) (p : EmployeeProfile)
    (now : String) : EmployeeProfile × ProfileStore :=
  let p' := { p with lastUpdated := now }
  (p', setA store p'.email p')

/-- Creation-time overrides (`additionalInfo` of `createNewProfile`,
populated from the `start_onboarding` / `register_employee` arguments). -/
structure ProfileOverrides where
  name : Option String := none
  buddyEmail : Option String := none
  department : Option String := none
deriving DecidableEq, Repr

/-- JavaScript `a || b` for an optional string `a`: the fallback is used
when `a` is absent or empty (falsy). -/
def jsOrElse (o : Option String) (fb : String) : String :=
  match o with
  | some s => if s = "" then fb else s
  | none => fb

/-- `createNewProfile`: build a fresh profile (lower-cased email, derived
or overridden name, `currentStep = 1`, empty `completedSteps` and
`stepData`, timestamps set to the current time) and save it immediately. -/
def createNewProfile (email : String) (info : ProfileOverrides)
    (now : String) (store : ProfileStore) : EmployeeProfile × ProfileStore :=
  let p : EmployeeProfile :=
    { email := jsToLower email
      name := jsOrElse info.name (extractNameFromEmail email)
      startDate := now
      buddyEmail := info.buddyEmail
      department := info.department
      currentStep := 1
      completedSteps := []
      stepData := []
      createdAt := now
      lastUpdated := now
      version := "1.0" }
  saveEmployeeProfile store p now

/-- `getEmployeeProfile` with an explicitly supplied email: read the file
named after the email as given; when the read fails, fall back to
`createNewProfile` (with no overrides). -/
def getEmployeeProfile (email : String) (now : String)
    (store : ProfileStore) : EmployeeProfile × ProfileStore :=
  match getA store email with
  | some p => (p, store)
  | none => createNewProfile email {} now store

/-- `handleStartOnboarding` when an email argument is supplied: it calls
`createNewProfile` with the request arguments as overrides. -/
def startOnboardingWithEmail (email : String) (args : ProfileOverrides)
    (now : String) (store : ProfileStore) : EmployeeProfile × ProfileStore :=
  createNewProfile email args now store

/-- Core of `handleRequestSAWDevice`: write the request id, device type,
manager email and request time into `stepData[2]` (creating the record if
absent) and save the profile.  `requestId` stands for the generated
`SAW-<timestamp>` string. -/
def requestSawDevice (store : ProfileStore) (p : EmployeeProfile)
    (deviceType managerEmail requestId now : String) :
    EmployeeProfile × ProfileStore :=
  let r0 := (getA p.stepData 2).getD []
  let r1 := setA (setA (setA (setA r0
      "sawRequestId" (.str requestId))
      "deviceType" (.str deviceType))
      "managerEmail" (.str managerEmail))
      "requestedAt" (.str now)
  let p1 := { p with stepData := setA p.stepData 2 r1 }
  saveEmployeeProfile store p1 now

/-- Character class of the JavaScript regex `\s` escape (ASCII part). -/
def jsWhitespace (c : Char) : Bool :=
  c == ' ' || c == '\t' || c == '\n' || c == '\r' || c == '\x0b' || c == '\x0c'

/-- JavaScript `s.trim()` (ASCII whitespace). -/
def jsTrim (s : String) : String :=
  String.mk (((s.data.dropWhile jsWhitespace).reverse.dropWhile
    jsWhitespace).reverse)

/-- JavaScript `s.endsWith(suffix)`. -/
def endsWithStr (s suffix : String) : Bool := suffix.data.isSuffixOf s.data

/-- Leftmost-match search: try the position matcher `f` at every suffix of
the character list, left to right, and return the first hit (the behavior
of an unanchored JavaScript regex `match`). -/
def scanFirst {α : Type} (f : List Char → Option α) : List Char → Option α
  | [] => none
  | c :: rest =>
      match f (c :: rest) with
      | some a => some a
      | none => scanFirst f rest

/-- Consume the literal `lit` at the head of `cs`, returning the rest. -/
def eatLit (lit : List Char) (cs : List Char) : Option (List Char) :=
  if lit.isPrefixOf cs then some (cs.drop lit.length) else none

/-- Numeric value of a non-empty digit run (`parseInt` on the capture of
`(\d+)`). -/
def digitsToNat (ds : List Char) : Nat :=
  ds.foldl (fun n c => n * 10 + (c.toNat - '0'.toNat)) 0

/-- Position matcher for `/step-(\d+)/`: the literal `step-` followed by at
least one digit, whose maximal digit run is the capture. -/
def stepIdAt (cs : List Char) : Option Nat :=
  match eatLit "step-".data cs with
  | none => none
  | some rest =>
      let ds := rest.takeWhile Char.isDigit
      if ds.isEmpty then none else some (digitsToNat ds)

/-- Step id extraction from a source filename (`filename.match(/step-(\d+)/)`,
with fallback id `0` when the pattern is absent). -/
def extractStepId (filename : String) : Nat :=
  (scanFirst stepIdAt filename.data).getD 0

/-- Match of `/^#\s+(.+)$/` against one line of the document (the line
itself contains no `\n`): a leading `#`, at least one whitespace
character, then a non-empty remainder free of `\r` (which `.` does not
match), trimmed as in the source. -/
def titleOfLine (l : String) : Option String :=
  match l.data with
  | '#' :: rest =>
      let ws := rest.takeWhile jsWhitespace
      let rem := rest.drop ws.length
      if ws.isEmpty || rem.isEmpty || rem.any (· == '\r') then none
      else some (jsTrim (String.mk rem))
  | _ => none

/-- Markdown title extraction: first line matching `/^#\s+(.+)$/m`. -/
def mdTitle (content : String) : Option String :=
  ((splitOnChar '\n' content).filterMap titleOfLine).head?

/-- Lazy capture of `(.+?)\*\*`: the shortest non-empty line-local run of
characters followed by a literal `**`. -/
def headerCapture (acc : List Char) : List Char → Option (List Char)
  | [] => none
  | c :: rest =>
      if c == '\n' || c == '\r' then none
      else
        let acc' := acc ++ [c]
        if ['*', '*'].isPrefixOf rest then some acc' else headerCapture acc' rest

/-- Position matcher for the header-line regex
`/\*\*Step \d+ of \d+\*\*\s*\|\s*\*\*(.+?)\*\*/`, returning the label
capture. -/
def headerLabelAt (cs : List Char) : Option String :=
  match eatLit "**Step ".data cs with
  | none => none
  | some r1 =>
      let d1 := r1.takeWhile Char.isDigit
      if d1.isEmpty then none else
      match eatLit " of ".data (r1.drop d1.length) with
      | none => none
      | some r2 =>
          let d2 := r2.takeWhile Char.isDigit
          if d2.isEmpty then none else
          match eatLit "**".data (r2.drop d2.length) with
          | none => none
          | some r3 =>
              let r4 := r3.drop (r3.takeWhile jsWhitespace).length
              match eatLit "|".data r4 with
              | none => none
              | some r5 =>
                  let r6 := r5.drop (r5.takeWhile jsWhitespace).length
                  match eatLit "**".data r6 with
                  | none => none
                  | some r7 => (headerCapture [] r7).map String.mk

/-- Leftmost match of the bolded `Step X of Y | <label>` header line. -/
def findHeaderLabel (content : String) : Option String :=
  scanFirst headerLabelAt content.data

/-- Substring containment on character lists (`String.prototype.includes`). -/
def hasSubstr : List Char → List Char → Bool
  | [], n => n.isEmpty
  | h :: t, n => n.isPrefixOf (h :: t) || hasSubstr t n

/-- JavaScript `s.includes(pat)`. -/
def includesStr (s pat : String) : Bool := hasSubstr s.data pat.data

/-- `parseStepMarkdown` (projected to the modeled fields): id from the
filename, title from the first markdown heading, required flag from the
bolded header label (`label.toLowerCase().includes('required')`, with
default `true` when the header line is absent), fixed type `general`, raw
content retained. -/
def parseStepMarkdown (content filename : String) : OnboardingStep :=
  let id := extractStepId filename
  let isRequired :=
    match findHeaderLabel content with
    | some lbl => includesStr (jsToLower lbl) "required"
    | none => true
  { id := id
    title := (mdTitle content).getD ("Step " ++ toString id)
    type := "general"
    required := isRequired
    content := content
    isMarkdown := true }

/-- Position matcher for `/<h[12][^>]*>([^<]+)<\/h[12]>/i`. -/
def h12At (cs : List Char) : Option (List Char) :=
  match cs with
  | '<' :: c1 :: c2 :: rest =>
      if (c1 == 'h' || c1 == 'H') && (c2 == '1' || c2 == '2') then
        let attrs := rest.takeWhile (· ≠ '>')
        match rest.drop attrs.length with
        | '>' :: r2 =>
            let inner := r2.takeWhile (· ≠ '<')
            if inner.isEmpty then none
            else
              match r2.drop inner.length with
              | '<' :: '/' :: hc :: dc :: '>' :: _ =>
                  if (hc == 'h' || hc == 'H') && (dc == '1' || dc == '2') then
                    some inner
                  else none
              | _ => none
        | _ => none
      else none
  | _ => none

/-- Position matcher for `/data-step-type="([^"]+)"/`. -/
def dataStepTypeAt (cs : List Char) : Option String :=
  match eatLit "data-step-type=\"".data cs with
  | none => none
  | some r =>
      let v := r.takeWhile (· ≠ '"')
      if v.isEmpty then none
      else
        match r.drop v.length with
        | '"' :: _ => some (String.mk v)
        | _ => none

/-- Position matcher for `/data-required="(true|false)"/`. -/
def dataRequiredAt (cs : List Char) : Option Bool :=
  match eatLit "data-required=\"".data cs with
  | none => none
  | some r =>
      if "true\"".data.isPrefixOf r then some true
      else if "false\"".data.isPrefixOf r then some false
      else none

/-- `parseStepHTML` (projected to the modeled fields): id from the
filename, title from the first `h1`/`h2` element, type and required flag
from data attributes, raw content retained. -/
def parseStepHTML (content filename : String) : OnboardingStep :=
  let id := extractStepId filename
  { id := id
    title := (scanFirst h12At content.data).elim ("Step " ++ toString id)
      (fun cs => jsTrim (String.mk cs))
    type := (scanFirst dataStepTypeAt content.data).getD "general"
    required := (scanFirst dataRequiredAt content.data).getD true
    content := content
    isMarkdown := false }

/-- `loadSteps`: parse every `.md` document (recording its id as claimed),
then parse each `.html` document whose filename-derived id was not claimed
by a markdown document.  `files` is the directory listing as
`(filename, content)` pairs in directory order. -/
def loadSteps (files : List (String × String)) : List OnboardingStep :=
  let mdFiles := files.filter (fun f => endsWithStr f.1 ".md")
  let mdSteps := mdFiles.map (fun f => parseStepMarkdown f.2 f.1)
  let stepIds := mdSteps.map (·.id)
  let htmlFiles := files.filter (fun f => endsWithStr f.1 ".html")
  let htmlSteps := htmlFiles.filterMap (fun f =>
    if stepIds.contains (extractStepId f.1) then none
    else some (parseStepHTML f.2 f.1))
  mdSteps ++ htmlSteps

/-- Stable insertion after every element of smaller or equal id (one step
of the stable ascending sort performed by `steps.sort((a, b) => a.id - b.id)`). -/
def insertByIdLe (st : OnboardingStep) : List OnboardingStep → List OnboardingStep
  | [] => [st]
  | t :: ts => if t.id ≤ st.id then t :: insertByIdLe st ts else st :: t :: ts

/-- Stable ascending sort by step id. -/
def sortById (l : List OnboardingStep) : List OnboardingStep :=
  l.foldl (fun acc st => insertByIdLe st acc) []

/-- `loadConfiguration` restricted to the step documents: the accepted
records sorted ascending by id (the shape returned by `getAllSteps`). -/
def loadConfiguration (files : List (String × String)) : List OnboardingStep :=
  sortById (loadSteps files)

/-- Minimal configured step record with a given id, used as test data. -/
def basicStep (i : Nat) : OnboardingStep :=
  { id := i
    title := "Step " ++ toString i
    type := "general"
    required := true
    content := ""
    isMarkdown := true }

/-- Step configuration whose ids are exactly 1, 2, 3. -/
def steps123 : List OnboardingStep := [basicStep 1, basicStep 2, basicStep 3]

/-- Freshly created profile (the shape produced by `createNewProfile`). -/
def freshProfile : EmployeeProfile :=
  { email := "new.hire@company.com"
    name := "New Hire"
    startDate := "2024-01-02T00:00:00.000Z"
    buddyEmail := none
    department := none
    currentStep := 1
    completedSteps := []
    stepData := []
    createdAt := "2024-01-02T00:00:00.000Z"
    lastUpdated := "2024-01-02T00:00:00.000Z"
    version := "1.0" }

/-- Profile that completed step 1 and then received side-channel SAW
request data under `stepData[2]` before completing step 2. -/
def sawProfile : EmployeeProfile :=
  { freshProfile with
      currentStep := 2
      completedSteps := [1]
      stepData := [(2, [("sawRequestId", JsVal.str "SAW-1700000000000")])] }

/-- Already-registered profile with recorded progress. -/
def existingProfile : EmployeeProfile :=
  { email := "a.b@c.com"
    name := "A B"
    startDate := "2024-01-02T00:00:00.000Z"
    buddyEmail := some "buddy@c.com"
    department := some "eng"
    currentStep := 3
    completedSteps := [1, 2]
    stepData := [(1, [("completedAt", JsVal.str "2024-01-03T00:00:00.000Z")])]
    createdAt := "2024-01-02T00:00:00.000Z"
    lastUpdated := "2024-01-03T00:00:00.000Z"
    version := "1.0" }

/-- Data directory holding exactly the profile of `existingProfile`. -/
def store0 : ProfileStore := [("a.b@c.com", existingProfile)]

/-- Markdown step document whose header label reads `Mandatory`. -/
def mandatoryDoc : String :=
  "# SAW Device\n\n**Step 1 of 3** | **Mandatory**\n\nBody text."

/-- Markdown step document whose header label reads `Required Step` (the
convention of the shipped step documents). -/
def requiredDoc : String :=
  "# First PR\n\n**Step 2 of 3** | **Required Step**\n\nBody text."

/-- Two markup documents whose filenames derive the same step id. -/
def dupHtmlFiles : List (String × String) :=
  [("step-5-a.html", "<h1>A</h1>"), ("step-5-b.html", "<h1>B</h1>")]

/-- A markdown and a markup document sharing the filename-derived id 2. -/
def mdHtmlPairFiles : List (String × String) :=
  [("step-2-x.md", "# Md Two\n\n**Step 2 of 3** | **Required Step**\n"),
   ("step-2-x.html", "<h1>Html Two</h1>")]

/-- Fresh profile whose `completedSteps` already holds a step ahead of
`currentStep`; it satisfies every profile invariant stated in the data
model (positive `currentStep`, `currentStep` not in `completedSteps`, no
duplicate completed steps). -/
def aheadProfile : EmployeeProfile := { freshProfile with completedSteps := [2] }

/-- Filename-derived ids of the markdown documents, in directory order. -/
def mdIdsOf (files : List (String × String)) : List Nat :=
  (files.filter (fun f => endsWithStr f.1 ".md")).map
    (fun f => extractStepId f.1)

/-- Filename-derived ids of the markup documents, in directory order. -/
def htmlIdsOf (files : List (String × String)) : List Nat :=
  (files.filter (fun f => endsWithStr f.1 ".html")).map
    (fun f => extractStepId f.1)

theorem getA_setA_same {κ ν : Type} [DecidableEq κ]
    (m : List (κ × ν)) (k : κ) (v : ν) : getA (setA m k v) k = some v := by
  induction m with
  | nil => simp [setA, getA]
  | cons hd tl ih =>
      obtain ⟨k', v'⟩ := hd
      by_cases h : k' = k
      · simp [setA, getA, h]
      · simp [setA, getA, h, ih]

theorem getA_setA_other {κ ν : Type} [DecidableEq κ]
    (m : List (κ × ν)) (k j : κ) (v : ν) (hkj : j ≠ k) :
    getA (setA m k v) j = getA m j := by
  induction m with
  | nil => simp [setA, getA, Ne.symm hkj]
  | cons hd tl ih =>
      obtain ⟨k', v'⟩ := hd
      by_cases h : k' = k
      · subst h
        simp [setA, getA, Ne.symm hkj]
      · by_cases h2 : k' = j
        · subst h2
          simp [setA, getA, h, hkj]
        · simp [setA, getA, h, h2, ih]

theorem insertByIdLe_perm (st : OnboardingStep) (l : List OnboardingStep) :
    List.Perm (insertByIdLe st l) (st :: l) := by
  induction l with
  | nil => exact List.Perm.refl _
  | cons t ts ih =>
      by_cases h : t.id ≤ st.id
      · simpa [insertByIdLe, h] using ((ih.cons t).trans (List.Perm.swap st t ts))
      · simp [insertByIdLe, h]

theorem insertByIdLe_sorted (st : OnboardingStep) (l : List OnboardingStep)
    (h : l.Pairwise (fun a b => a.id ≤ b.id)) :
    (insertByIdLe st l).Pairwise (fun a b => a.id ≤ b.id) := by
  induction l with
  | nil => simp [insertByIdLe]
  | cons t ts ih =>
      rcases List.pairwise_cons.1 h with ⟨ht, hts⟩
      by_cases hle : t.id ≤ st.id
      · simp only [insertByIdLe, if_pos hle]
        refine List.pairwise_cons.2 ⟨?_, ih hts⟩
        intro x hx
        rcases List.mem_cons.1 ((insertByIdLe_perm st ts).mem_iff.1 hx) with hx | hx
        · subst hx; exact hle
        · exact ht x hx
      · simp only [insertByIdLe, if_neg hle]
        refine List.pairwise_cons.2 ⟨?_, h⟩
        intro x hx
        rcases List.mem_cons.1 hx with hx | hx
        · subst hx; exact Nat.le_of_lt (Nat.lt_of_not_le hle)
        · exact Nat.le_trans (Nat.le_of_lt (Nat.lt_of_not_le hle)) (ht x hx)

theorem sortById_aux_perm (l : List OnboardingStep) :
    ∀ acc : List OnboardingStep,
      List.Perm (l.foldl (fun acc st => insertByIdLe st acc) acc) (l ++ acc) := by
  induction l with
  | nil => intro acc; simp
  | cons x xs ih =>
      intro acc
      have h1 := ih (insertByIdLe x acc)
      have h2 : List.Perm (xs ++ insertByIdLe x acc) (xs ++ x :: acc) :=
        (insertByIdLe_perm x acc).append_left xs
      have h3 : List.Perm (xs ++ x :: acc) (x :: (xs ++ acc)) :=
        List.perm_middle
      simpa using (h1.trans h2).trans h3

theorem sortById_perm (l : List OnboardingStep) : List.Perm (sortById l) l := by
  simpa using sortById_aux_perm l []

theorem sortById_aux_sorted (l : List OnboardingStep) :
    ∀ acc : List OnboardingStep, acc.Pairwise (fun a b => a.id ≤ b.id) →
      (l.foldl (fun acc st => insertByIdLe st acc) acc).Pairwise
        (fun a b => a.id ≤ b.id) := by
  induction l with
  | nil => intro acc h; simpa using h
  | cons x xs ih =>
      intro acc h
      exact ih (insertByIdLe x acc) (insertByIdLe_sorted x acc h)

theorem sortById_sorted (l : List OnboardingStep) :
    (sortById l).Pairwise (fun a b => a.id ≤ b.id) := by
  simpa [sortById] using sortById_aux_sorted l [] (by simp)

theorem find_gt_of_sorted (steps : List OnboardingStep) (s : Nat)
    (hs : steps.Pairwise (fun a b => a.id ≤ b.id)) :
    (∀ st, steps.find? (fun t => s < t.id) = some st →
        s < st.id ∧ ∀ u ∈ steps, s < u.id → st.id ≤ u.id) ∧
    (steps.find? (fun t => s < t.id) = none → ∀ u ∈ steps, u.id ≤ s) := by
  induction steps with
  | nil => simp
  | cons hd tl ih =>
      rcases List.pairwise_cons.1 hs with ⟨hhd, htl⟩
      by_cases h : s < hd.id
      · constructor
        · intro st hst
          rw [List.find?_cons_of_pos _ (by simpa using h)] at hst
          obtain rfl : hd = st := by simpa using hst
          refine ⟨h, ?_⟩
          intro u hu _
          rcases List.mem_cons.1 hu with hu | hu
          · subst hu; exact Nat.le_refl _
          · exact hhd u hu
        · intro hnone
          rw [List.find?_cons_of_pos _ (by simpa using h)] at hnone
          simp at hnone
      · have hle : hd.id ≤ s := Nat.le_of_not_lt h
        rcases ih htl with ⟨ihsome, ihnone⟩
        constructor
        · intro st hst
          rw [List.find?_cons_of_neg _ (by simpa using h)] at hst
          rcases ihsome st hst with ⟨h1, h2⟩
          refine ⟨h1, ?_⟩
          intro u hu hsu
          rcases List.mem_cons.1 hu with hu | hu
          · subst hu; exact absurd hsu h
          · exact h2 u hu hsu
        · intro hnone
          rw [List.find?_cons_of_neg _ (by simpa using h)] at hnone
          intro u hu
          rcases List.mem_cons.1 hu with hu | hu
          · subst hu; exact hle
          · exact ihnone hnone u hu

theorem completeStep_of_contains (steps : List OnboardingStep)
    (p : EmployeeProfile) (sid : Option Nat) (now : String)
    (notes data : Option String)
    (h : resolveStepId sid p.currentStep ∈ p.completedSteps) :
    completeStep steps p sid now notes data =
      ⟨.alreadyCompleted, p, false, none⟩ := by
  simp [completeStep, h]

theorem completeStep_of_outOfOrder (steps : List OnboardingStep)
    (p : EmployeeProfile) (sid : Option Nat) (now : String)
    (notes data : Option String)
    (h1 : resolveStepId sid p.currentStep ∉ p.completedSteps)
    (h2 : resolveStepId sid p.currentStep ≠ p.currentStep) :
    completeStep steps p sid now notes data = ⟨.outOfOrder, p, false, none⟩ := by
  simp [completeStep, h1, h2]

theorem completeStep_of_success (steps : List OnboardingStep)
    (p : EmployeeProfile) (sid : Option Nat) (now : String)
    (notes data : Option String)
    (h1 : resolveStepId sid p.currentStep ∉ p.completedSteps)
    (h2 : resolveStepId sid p.currentStep = p.currentStep) :
    completeStep steps p sid now notes data =
      ⟨.completed,
       { p with
           completedSteps := p.completedSteps ++ [p.currentStep]
           stepData := setA p.stepData p.currentStep
             [("completedAt", JsVal.str now), ("notes", optVal notes),
              ("data", optVal data)]
           currentStep := nextCurrentStep steps p.currentStep
           lastUpdated := now },
       true,
       (steps.find? (fun st =>
         st.id = nextCurrentStep steps p.currentStep)).map (·.id)⟩ := by
  rw [completeStep]
  simp only [h2] at h1 ⊢
  simp [h1]

theorem lt_nextCurrentStep (steps : List OnboardingStep) (s : Nat) :
    s < nextCurrentStep steps s := by
  rcases h : steps.find? (fun st => s < st.id) with _ | st
  · simp [nextCurrentStep, h]
  · have h2 : s < st.id := by simpa using List.find?_some h
    simpa [nextCurrentStep, h] using h2

/-- C3: `completeStep` validates in order — a step already in
`completedSteps` is answered with the `AlreadyCompleted` status (even when
it also differs from `currentStep`), and otherwise a step different from
`currentStep` is answered with the `OutOfOrder` status; in both rejection
cases a normal status result is returned with the profile unchanged and
nothing persisted. -/
theorem completeStep_validation_order (steps : List OnboardingStep)
    (p : EmployeeProfile) (sid : Option Nat) (now : String)
    (notes data : Option String) :
    (resolveStepId sid p.currentStep ∈ p.completedSteps →
        completeStep steps p sid now notes data =
          ⟨.alreadyCompleted, p, false, none⟩) ∧
    (resolveStepId sid p.currentStep ∉ p.completedSteps →
      resolveStepId sid p.currentStep ≠ p.currentStep →
        completeStep steps p sid now notes data =
          ⟨.outOfOrder, p, false, none⟩) := by
  constructor
  · intro h
    exact completeStep_of_contains steps p sid now notes data h
  · intro h1 h2
    exact completeStep_of_outOfOrder steps p sid now notes data h1 h2

/-- Witness for C3: completing the already-completed step 1 of
`sawProfile` reports `AlreadyCompleted`, and completing step 3 on a fresh
profile reports `OutOfOrder`; both leave the profile untouched and
unsaved. -/
theorem completeStep_validation_order_witness :
    completeStep steps123 sawProfile (some 1) "2024-01-05T00:00:00.000Z"
        none none = ⟨.alreadyCompleted, sawProfile, false, none⟩ ∧
    completeStep steps123 freshProfile (some 3) "2024-01-05T00:00:00.000Z"
        none none = ⟨.outOfOrder, freshProfile, false, none⟩ :=
  ⟨(completeStep_validation_order steps123 sawProfile (some 1)
      "2024-01-05T00:00:00.000Z" none none).1 (by decide),
   (completeStep_validation_order steps123 freshProfile (some 3)
      "2024-01-05T00:00:00.000Z" none none).2 (by decide) (by decide)⟩

/-- C4: with configured step ids exactly 1, 2, 3 and a fresh profile,
completing 3 is `OutOfOrder`; completing 1, 2, 3 in order succeeds with
next steps 2, 3 and finally none, ending at `currentStep = 4`; and in
general, on a sorted configuration the successful advancement target
`nextCurrentStep` is the smallest configured id strictly greater than the
completed id, or the completed id plus one when none exists. -/
theorem completeStep_advances_to_next_configured_step :
    ((completeStep steps123 freshProfile (some 3) "2024-01-05T00:00:00.000Z"
        none none).status = .outOfOrder) ∧
    (let r1 := completeStep steps123 freshProfile (some 1)
        "2024-01-05T00:00:00.000Z" none none
     r1.status = .completed ∧ r1.nextStep = some 2 ∧
       r1.profile.currentStep = 2 ∧
     (let r2 := completeStep steps123 r1.profile (some 2)
        "2024-01-06T00:00:00.000Z" none none
      r2.status = .completed ∧ r2.nextStep = some 3 ∧
        r2.profile.currentStep = 3 ∧
      (let r3 := completeStep steps123 r2.profile (some 3)
         "2024-01-07T00:00:00.000Z" none none
       r3.status = .completed ∧ r3.nextStep = none ∧
         r3.profile.currentStep = 4))) ∧
    (∀ (steps : List OnboardingStep) (s : Nat),
      steps.Pairwise (fun a b => a.id ≤ b.id) →
      ((∃ st ∈ steps, st.id = nextCurrentStep steps s ∧ s < st.id ∧
          ∀ u ∈ steps, s < u.id → nextCurrentStep steps s ≤ u.id) ∨
       ((∀ u ∈ steps, u.id ≤ s) ∧ nextCurrentStep steps s = s + 1))) ∧
    (∀ (steps : List OnboardingStep) (p : EmployeeProfile) (sid : Option Nat)
        (now : String) (notes data : Option String),
      (completeStep steps p sid now notes data).status = .completed →
      (completeStep steps p sid now notes data).profile.currentStep =
        nextCurrentStep steps (resolveStepId sid p.currentStep)) := by
  refine ⟨by decide, by decide, ?_, ?_⟩
  · intro steps s hs
    rcases h : steps.find? (fun st => s < st.id) with _ | st
    · right
      refine ⟨(find_gt_of_sorted steps s hs).2 h, ?_⟩
      simp [nextCurrentStep, h]
    · left
      rcases (find_gt_of_sorted steps s hs).1 st h with ⟨h1, h2⟩
      have hmem : st ∈ steps := List.mem_of_find?_eq_some h
      have hid : nextCurrentStep steps s = st.id := by simp [nextCurrentStep, h]
      exact ⟨st, hmem, hid.symm, h1, by simpa [hid] using h2⟩
  · intro steps p sid now notes data hc
    by_cases hb : resolveStepId sid p.currentStep ∈ p.completedSteps
    · rw [completeStep_of_contains steps p sid now notes data hb] at hc
      simp at hc
    · by_cases heq : resolveStepId sid p.currentStep = p.currentStep
      · rw [completeStep_of_success steps p sid now notes data hb heq, heq]
      · rw [completeStep_of_outOfOrder steps p sid now notes data hb heq] at hc
        simp at hc

/-- Witness for C4: the general advancement clauses instantiated on the
three-step configuration at completed id 1 and at a concrete successful
call. -/
theorem completeStep_advances_witness :
    ((∃ st ∈ steps123, st.id = nextCurrentStep steps123 1 ∧ 1 < st.id ∧
        ∀ u ∈ steps123, 1 < u.id → nextCurrentStep steps123 1 ≤ u.id) ∨
     ((∀ u ∈ steps123, u.id ≤ 1) ∧ nextCurrentStep steps123 1 = 1 + 1)) ∧
    (completeStep steps123 freshProfile (some 1) "2024-01-05T00:00:00.000Z"
        none none).profile.currentStep =
      nextCurrentStep steps123 (resolveStepId (some 1)
        freshProfile.currentStep) :=
  ⟨completeStep_advances_to_next_configured_step.2.2.1 steps123 1 (by decide),
   completeStep_advances_to_next_configured_step.2.2.2 steps123 freshProfile
     (some 1) "2024-01-05T00:00:00.000Z" none none (by decide)⟩

/-- Counterexample to C5: `aheadProfile` satisfies the stated profile
invariants, yet after the successful `completeStep` of step 1 (with
configured ids 1, 2, 3) the new `currentStep` (2) is a member of the new
`completedSteps`. -/
theorem completeStep_currentStep_reenters_completed :
    (0 < aheadProfile.currentStep ∧
     aheadProfile.currentStep ∉ aheadProfile.completedSteps ∧
     aheadProfile.completedSteps.Nodup) ∧
    (completeStep steps123 aheadProfile (some 1) "2024-01-05T00:00:00.000Z"
        none none).status = .completed ∧
    (completeStep steps123 aheadProfile (some 1) "2024-01-05T00:00:00.000Z"
        none none).profile.currentStep ∈
      (completeStep steps123 aheadProfile (some 1) "2024-01-05T00:00:00.000Z"
        none none).profile.completedSteps := by decide

/-- C5 (amended): for every profile in which every completed step id lies
below `currentStep` (the invariant actually maintained by the completion
flow), immediately after any successful `completeStep` call the new
`currentStep` is not a member of the new `completedSteps`. -/
theorem completeStep_currentStep_not_completed (steps : List OnboardingStep)
    (p : EmployeeProfile) (sid : Option Nat) (now : String)
    (notes data : Option String)
    (hinv : ∀ x ∈ p.completedSteps, x < p.currentStep)
    (hc : (completeStep steps p sid now notes data).status = .completed) :
    (completeStep steps p sid now notes data).profile.currentStep ∉
      (completeStep steps p sid now notes data).profile.completedSteps := by
  by_cases hb : resolveStepId sid p.currentStep ∈ p.completedSteps
  · rw [completeStep_of_contains steps p sid now notes data hb] at hc
    simp at hc
  · by_cases heq : resolveStepId sid p.currentStep = p.currentStep
    · rw [completeStep_of_success steps p sid now notes data hb heq]
      intro hmem
      simp only [List.mem_append, List.mem_singleton] at hmem
      rcases hmem with hmem | hmem
      · exact Nat.lt_irrefl _ (Nat.lt_trans (hinv _ hmem)
          (lt_nextCurrentStep steps p.currentStep))
      · exact Nat.lt_irrefl _ (hmem ▸ lt_nextCurrentStep steps p.currentStep)
    · rw [completeStep_of_outOfOrder steps p sid now notes data hb heq] at hc
      simp at hc

/-- Witness for C5 (amended): on a fresh profile completing step 1 of the
three-step configuration, the new current step 2 is not among the
completed steps. -/
theorem completeStep_currentStep_not_completed_witness :
    (completeStep steps123 freshProfile (some 1) "2024-01-05T00:00:00.000Z"
        none none).profile.currentStep ∉
      (completeStep steps123 freshProfile (some 1) "2024-01-05T00:00:00.000Z"
        none none).profile.completedSteps :=
  completeStep_currentStep_not_completed steps123 freshProfile (some 1)
    "2024-01-05T00:00:00.000Z" none none (by decide) (by decide)

/-- Counterexample to C1: `sawProfile` carries the side-channel key
`sawRequestId` in `stepData[2]`; the successful completion of step 2
removes that key instead of preserving it (the fresh completion record
replaces the whole entry). -/
theorem completeStep_discards_side_channel_data :
    getA ((getA sawProfile.stepData 2).getD []) "sawRequestId" =
      some (JsVal.str "SAW-1700000000000") ∧
    (completeStep steps123 sawProfile (some 2) "2024-01-05T00:00:00.000Z"
        none none).status = .completed ∧
    getA ((getA (completeStep steps123 sawProfile (some 2)
        "2024-01-05T00:00:00.000Z" none none).profile.stepData 2).getD [])
      "sawRequestId" = none := by decide

/-- C1 (amended): a successful `completeStep` assigns
`stepData[requestedStepId]` wholesale to the fresh
`{completedAt, notes, data}` record — any previously written key under the
completed step id (for example a `sawRequestId` recorded by
`request_saw_device`) is discarded — while the entries of every other
step id are preserved. -/
theorem completeStep_overwrites_stepData (steps : List OnboardingStep)
    (p : EmployeeProfile) (sid : Option Nat) (now : String)
    (notes data : Option String)
    (hc : (completeStep steps p sid now notes data).status = .completed) :
    getA (completeStep steps p sid now notes data).profile.stepData
        (resolveStepId sid p.currentStep) =
      some [("completedAt", JsVal.str now), ("notes", optVal notes),
            ("data", optVal data)] ∧
    ∀ t, t ≠ resolveStepId sid p.currentStep →
      getA (completeStep steps p sid now notes data).profile.stepData t =
        getA p.stepData t := by
  by_cases hb : resolveStepId sid p.currentStep ∈ p.completedSteps
  · rw [completeStep_of_contains steps p sid now notes data hb] at hc
    simp at hc
  · by_cases heq : resolveStepId sid p.currentStep = p.currentStep
    · rw [completeStep_of_success steps p sid now notes data hb heq, heq]
      constructor
      · exact getA_setA_same p.stepData p.currentStep _
      · intro t ht
        exact getA_setA_other p.stepData p.currentStep t _ ht
    · rw [completeStep_of_outOfOrder steps p sid now notes data hb heq] at hc
      simp at hc

/-- Witness for C1 (amended): the concrete successful completion of step 2
on `sawProfile` yields exactly the fresh completion record under
`stepData[2]` and leaves `stepData[1]` as it was. -/
theorem completeStep_overwrites_stepData_witness :
    getA (completeStep steps123 sawProfile (some 2) "2024-01-05T00:00:00.000Z"
        (some "done") none).profile.stepData
        (resolveStepId (some 2) sawProfile.currentStep) =
      some [("completedAt", JsVal.str "2024-01-05T00:00:00.000Z"),
            ("notes", optVal (some "done")), ("data", optVal none)] ∧
    getA (completeStep steps123 sawProfile (some 2) "2024-01-05T00:00:00.000Z"
        (some "done") none).profile.stepData 1 = getA sawProfile.stepData 1 :=
  have h := completeStep_overwrites_stepData steps123 sawProfile (some 2)
    "2024-01-05T00:00:00.000Z" (some "done") none (by decide)
  ⟨h.1, h.2 1 (by decide)⟩

/-- Counterexample to C2: `store0` already holds the profile of
`a.b@c.com` with `currentStep = 3` and start date 2024-01-02; invoking
`start_onboarding` with that email replaces the stored profile with a
fresh one (`currentStep = 1`, empty progress, new `startDate` and
`createdAt`) instead of leaving it unchanged. -/
theorem startOnboarding_resets_existing_profile :
    existingProfile.startDate = "2024-01-02T00:00:00.000Z" ∧
    existingProfile.currentStep = 3 ∧
    existingProfile.completedSteps = [1, 2] ∧
    getA store0 "a.b@c.com" = some existingProfile ∧
    getA (startOnboardingWithEmail "a.b@c.com" {}
        "2024-06-01T00:00:00.000Z" store0).2 "a.b@c.com" =
      some (startOnboardingWithEmail "a.b@c.com" {}
        "2024-06-01T00:00:00.000Z" store0).1 ∧
    (startOnboardingWithEmail "a.b@c.com" {}
        "2024-06-01T00:00:00.000Z" store0).1.startDate =
      "2024-06-01T00:00:00.000Z" ∧
    (startOnboardingWithEmail "a.b@c.com" {}
        "2024-06-01T00:00:00.000Z" store0).1.currentStep = 1 ∧
    (startOnboardingWithEmail "a.b@c.com" {}
        "2024-06-01T00:00:00.000Z" store0).1.completedSteps = [] ∧
    (startOnboardingWithEmail "a.b@c.com" {}
        "2024-06-01T00:00:00.000Z" store0).1.createdAt =
      "2024-06-01T00:00:00.000Z" := by decide

/-- C2 (amended): invoking `start_onboarding` with an email
unconditionally builds and saves a fresh profile under the lower-cased
email — overwriting any existing profile for that employee — with
`currentStep = 1`, empty `completedSteps` and `stepData`, `startDate` and
`createdAt` set to the current time, and the creation-time overrides
applied. -/
theorem startOnboarding_creates_fresh_profile (email : String)
    (args : ProfileOverrides) (now : String) (store : ProfileStore) :
    getA (startOnboardingWithEmail email args now store).2 (jsToLower email) =
      some (startOnboardingWithEmail email args now store).1 ∧
    (startOnboardingWithEmail email args now store).1.currentStep = 1 ∧
    (startOnboardingWithEmail email args now store).1.completedSteps = [] ∧
    (startOnboardingWithEmail email args now store).1.stepData = [] ∧
    (startOnboardingWithEmail email args now store).1.startDate = now ∧
    (startOnboardingWithEmail email args now store).1.createdAt = now ∧
    (startOnboardingWithEmail email args now store).1.name =
      jsOrElse args.name (extractNameFromEmail email) ∧
    (startOnboardingWithEmail email args now store).1.buddyEmail =
      args.buddyEmail ∧
    (startOnboardingWithEmail email args now store).1.department =
      args.department :=
  ⟨getA_setA_same store (jsToLower email) _,
   rfl, rfl, rfl, rfl, rfl, rfl, rfl, rfl⟩

/-- Counterexample to C7: creating a profile for a mixed-case email stores
it under the lower-cased key, but `getEmployeeProfile` looks up the email
as given; the lookup misses and a fresh default profile (derived name, new
start date) is returned instead of the stored one. -/
theorem getEmployeeProfile_case_mismatch :
    (createNewProfile "Jane.Doe@Company.com" { name := some "Custom Name" }
        "2024-01-02T00:00:00.000Z" []).1.email = "jane.doe@company.com" ∧
    (createNewProfile "Jane.Doe@Company.com" { name := some "Custom Name" }
        "2024-01-02T00:00:00.000Z" []).1.name = "Custom Name" ∧
    getA (createNewProfile "Jane.Doe@Company.com" { name := some "Custom Name" }
        "2024-01-02T00:00:00.000Z" []).2 "Jane.Doe@Company.com" = none ∧
    (getEmployeeProfile "Jane.Doe@Company.com" "2024-06-01T00:00:00.000Z"
        (createNewProfile "Jane.Doe@Company.com" { name := some "Custom Name" }
          "2024-01-02T00:00:00.000Z" []).2).1.name = "Jane Doe" ∧
    (getEmployeeProfile "Jane.Doe@Company.com" "2024-06-01T00:00:00.000Z"
        (createNewProfile "Jane.Doe@Company.com" { name := some "Custom Name" }
          "2024-01-02T00:00:00.000Z" []).2).1.startDate =
      "2024-06-01T00:00:00.000Z" := by decide

/-- C7 (amended): for an email that already equals its lower-cased form,
the store key and the lookup key coincide, so `createNewProfile` followed
by `getEmployeeProfile` returns the stored profile (and leaves the store
untouched); only such emails enjoy the round trip. -/
theorem profile_lookup_roundtrip_lowercase (email : String)
    (args : ProfileOverrides) (now later : String) (store : ProfileStore)
    (h : jsToLower email = email) :
    getEmployeeProfile email later (createNewProfile email args now store).2 =
      ((createNewProfile email args now store).1,
       (createNewProfile email args now store).2) := by
  have hkey : getA (createNewProfile email args now store).2 email =
      some (createNewProfile email args now store).1 := by
    simp only [createNewProfile, saveEmployeeProfile, h]
    exact getA_setA_same store email _
  simp [getEmployeeProfile, hkey]

/-- Witness for C7 (amended): the round trip at a concrete all-lowercase
email. -/
theorem profile_lookup_roundtrip_lowercase_witness :
    getEmployeeProfile "jane.doe@company.com" "2024-06-01T00:00:00.000Z"
        (createNewProfile "jane.doe@company.com" {}
          "2024-01-02T00:00:00.000Z" []).2 =
      ((createNewProfile "jane.doe@company.com" {}
          "2024-01-02T00:00:00.000Z" []).1,
       (createNewProfile "jane.doe@company.com" {}
          "2024-01-02T00:00:00.000Z" []).2) :=
  profile_lookup_roundtrip_lowercase "jane.doe@company.com" {}
    "2024-01-02T00:00:00.000Z" "2024-06-01T00:00:00.000Z" [] (by decide)

/-- C9: the derived display name splits the email local-part on `.` or
`_`, capitalizing each segment (`jane.doe` and `jane_doe` become
`Jane Doe`), falls back to capitalizing the whole local part (`jdoe`
becomes `Jdoe`), and is the name given to every profile created without an
explicit name override. -/
theorem extractNameFromEmail_spec :
    extractNameFromEmail "jane.doe@company.com" = "Jane Doe" ∧
    extractNameFromEmail "jane_doe@company.com" = "Jane Doe" ∧
    extractNameFromEmail "jdoe@company.com" = "Jdoe" ∧
    ∀ (email : String) (buddy dept : Option String) (now : String)
      (store : ProfileStore),
      (createNewProfile email
          { name := none, buddyEmail := buddy, department := dept }
          now store).1.name = extractNameFromEmail email := by
  refine ⟨by decide, by decide, by decide, ?_⟩
  intro email buddy dept now store
  rfl

/-- C10: `request_saw_device` always records under the hard-coded step id
2, whatever the profile's current step: it writes `sawRequestId`,
`deviceType`, `managerEmail` and `requestedAt` into `stepData[2]`
(creating the entry if absent and preserving its other keys), leaves
`completedSteps`, `currentStep` and every other `stepData` entry
unchanged, and then persists the profile. -/
theorem requestSawDevice_frame (store : ProfileStore) (p : EmployeeProfile)
    (deviceType managerEmail requestId now : String) :
    (requestSawDevice store p deviceType managerEmail requestId
        now).1.completedSteps = p.completedSteps ∧
    (requestSawDevice store p deviceType managerEmail requestId
        now).1.currentStep = p.currentStep ∧
    (∀ t, t ≠ 2 →
      getA (requestSawDevice store p deviceType managerEmail requestId
          now).1.stepData t = getA p.stepData t) ∧
    getA ((getA (requestSawDevice store p deviceType managerEmail requestId
        now).1.stepData 2).getD []) "sawRequestId" =
      some (JsVal.str requestId) ∧
    getA ((getA (requestSawDevice store p deviceType managerEmail requestId
        now).1.stepData 2).getD []) "deviceType" =
      some (JsVal.str deviceType) ∧
    getA ((getA (requestSawDevice store p deviceType managerEmail requestId
        now).1.stepData 2).getD []) "managerEmail" =
      some (JsVal.str managerEmail) ∧
    getA ((getA (requestSawDevice store p deviceType managerEmail requestId
        now).1.stepData 2).getD []) "requestedAt" = some (JsVal.str now) ∧
    (∀ k, k ≠ "sawRequestId" → k ≠ "deviceType" → k ≠ "managerEmail" →
      k ≠ "requestedAt" →
      getA ((getA (requestSawDevice store p deviceType managerEmail requestId
          now).1.stepData 2).getD []) k =
        getA ((getA p.stepData 2).getD []) k) ∧
    (requestSawDevice store p deviceType managerEmail requestId now).2 =
      setA store
        (requestSawDevice store p deviceType managerEmail requestId now).1.email
        (requestSawDevice store p deviceType managerEmail requestId now).1 := by
  have hrec : getA (requestSawDevice store p deviceType managerEmail requestId
      now).1.stepData 2 =
      some (setA (setA (setA (setA ((getA p.stepData 2).getD [])
        "sawRequestId" (.str requestId))
        "deviceType" (.str deviceType))
        "managerEmail" (.str managerEmail))
        "requestedAt" (.str now)) := by
    simp only [requestSawDevice, saveEmployeeProfile]
    exact getA_setA_same p.stepData 2 _
  refine ⟨rfl, rfl, ?_, ?_, ?_, ?_, ?_, ?_, rfl⟩
  · intro t ht
    simp only [requestSawDevice, saveEmployeeProfile]
    exact getA_setA_other p.stepData 2 t _ ht
  · rw [hrec]
    simp only [Option.getD_some]
    rw [getA_setA_other _ _ _ _ (by decide),
        getA_setA_other _ _ _ _ (by decide),
        getA_setA_other _ _ _ _ (by decide)]
    exact getA_setA_same _ _ _
  · rw [hrec]
    simp only [Option.getD_some]
    rw [getA_setA_other _ _ _ _ (by decide),
        getA_setA_other _ _ _ _ (by decide)]
    exact getA_setA_same _ _ _
  · rw [hrec]
    simp only [Option.getD_some]
    rw [getA_setA_other _ _ _ _ (by decide)]
    exact getA_setA_same _ _ _
  · rw [hrec]
    simp only [Option.getD_some]
    exact getA_setA_same _ _ _
  · intro k h1 h2 h3 h4
    rw [hrec]
    simp only [Option.getD_some]
    rw [getA_setA_other _ _ _ _ h4, getA_setA_other _ _ _ _ h3,
        getA_setA_other _ _ _ _ h2, getA_setA_other _ _ _ _ h1]

/-- Witness for C10: the device request on a fresh profile (current step
1) still lands in `stepData[2]`, leaves `currentStep` and `stepData[3]`
unchanged, and does not invent a `completedAt` key. -/
theorem requestSawDevice_frame_witness :
    (requestSawDevice [] freshProfile "standard-laptop" "manager@company.com"
        "SAW-1700000000000" "2024-01-05T00:00:00.000Z").1.currentStep =
      freshProfile.currentStep ∧
    getA ((getA (requestSawDevice [] freshProfile "standard-laptop"
        "manager@company.com" "SAW-1700000000000"
        "2024-01-05T00:00:00.000Z").1.stepData 2).getD []) "sawRequestId" =
      some (JsVal.str "SAW-1700000000000") ∧
    getA (requestSawDevice [] freshProfile "standard-laptop"
        "manager@company.com" "SAW-1700000000000"
        "2024-01-05T00:00:00.000Z").1.stepData 3 =
      getA freshProfile.stepData 3 ∧
    getA ((getA (requestSawDevice [] freshProfile "standard-laptop"
        "manager@company.com" "SAW-1700000000000"
        "2024-01-05T00:00:00.000Z").1.stepData 2).getD []) "completedAt" =
      getA ((getA freshProfile.stepData 2).getD []) "completedAt" :=
  have h := requestSawDevice_frame [] freshProfile "standard-laptop"
    "manager@company.com" "SAW-1700000000000" "2024-01-05T00:00:00.000Z"
  ⟨h.2.1, h.2.2.2.1, h.2.2.1 3 (by decide),
   h.2.2.2.2.2.2.2.1 "completedAt" (by decide) (by decide) (by decide)
     (by decide)⟩

/-- Counterexample to C8: a markdown document whose header label reads
`Mandatory` parses with `required = false` (the parser tests the label for
the substring `required`, not for the absence of an `optional` marker). -/
theorem parseStepMarkdown_mandatory_not_required :
    findHeaderLabel mandatoryDoc = some "Mandatory" ∧
    (parseStepMarkdown mandatoryDoc "step-1-saw-device.md").required =
      false := by decide

/-- C8 (amended): the parsed required flag is `true` when no bolded
`Step X of Y | <label>` line is present; when such a line is present the
step is required exactly when the label text contains a case-insensitive
`required` marker (so a `Mandatory` label yields `required = false`). -/
theorem parseStepMarkdown_required_iff_label_required
    (content filename : String) :
    (findHeaderLabel content = none →
      (parseStepMarkdown content filename).required = true) ∧
    (∀ lbl, findHeaderLabel content = some lbl →
      (parseStepMarkdown content filename).required =
        includesStr (jsToLower lbl) "required") := by
  constructor
  · intro h
    simp [parseStepMarkdown, h]
  · intro lbl h
    simp [parseStepMarkdown, h]

/-- Witness for C8 (amended): the shipped `Required Step` label parses as
required. -/
theorem parseStepMarkdown_required_witness :
    (parseStepMarkdown requiredDoc "step-2-first-pr.md").required =
      includesStr (jsToLower "Required Step") "required" ∧
    (parseStepMarkdown requiredDoc "step-2-first-pr.md").required = true :=
  ⟨(parseStepMarkdown_required_iff_label_required requiredDoc
      "step-2-first-pr.md").2 "Required Step" (by decide), by decide⟩

theorem filterMap_if_none {α β : Type} (p : α → Bool) (g : α → β)
    (l : List α) :
    l.filterMap (fun a => if p a then none else some (g a)) =
      (l.filter (fun a => !p a)).map g := by
  induction l with
  | nil => rfl
  | cons x xs ih =>
      by_cases h : p x <;> simp [List.filterMap_cons, List.filter_cons, h, ih]

theorem loadSteps_eq (files : List (String × String)) :
    loadSteps files =
      ((files.filter (fun f => endsWithStr f.1 ".md")).map
        (fun f => parseStepMarkdown f.2 f.1)) ++
      (((files.filter (fun f => endsWithStr f.1 ".html")).filter
        (fun f => !(((files.filter (fun f => endsWithStr f.1 ".md")).map
            (fun f => parseStepMarkdown f.2 f.1)).map (·.id)).contains
          (extractStepId f.1))).map (fun f => parseStepHTML f.2 f.1)) := by
  simp only [loadSteps]
  rw [filterMap_if_none]

theorem mdSteps_ids (files : List (String × String)) :
    (((files.filter (fun f => endsWithStr f.1 ".md")).map
      (fun f => parseStepMarkdown f.2 f.1)).map (·.id)) = mdIdsOf files := by
  rw [List.map_map]
  rfl

/-- Counterexample to C6: two markup documents with the same
filename-derived id 5 each yield a record, so the loaded configuration
contains two records for one id. -/
theorem loadConfiguration_duplicate_ids_same_format :
    ((loadConfiguration dupHtmlFiles).map (·.id)) = [5, 5] ∧
    ¬ ((loadConfiguration dupHtmlFiles).map (·.id)).Nodup := by decide

/-- C6 (amended): the loaded step list is sorted ascending by id; every
markdown document's record is present and any record sharing a markdown
document's id is markdown-parsed (the markup document with that id is
discarded entirely); and provided no two documents of the same format
share a filename-derived id, the loaded ids are pairwise distinct — two
same-format documents with equal ids, however, both produce records. -/
theorem loadConfiguration_sorted_markdown_precedence
    (files : List (String × String)) :
    (loadConfiguration files).Pairwise (fun a b => a.id ≤ b.id) ∧
    (∀ fc ∈ files, endsWithStr fc.1 ".md" = true →
      parseStepMarkdown fc.2 fc.1 ∈ loadConfiguration files ∧
      ∀ st ∈ loadConfiguration files, st.id = extractStepId fc.1 →
        st.isMarkdown = true) ∧
    ((mdIdsOf files).Nodup → (htmlIdsOf files).Nodup →
      ((loadConfiguration files).map (·.id)).Nodup) := by
  have hperm := sortById_perm (loadSteps files)
  refine ⟨sortById_sorted _, ?_, ?_⟩
  · intro fc hmem hmd
    have hmdmem : parseStepMarkdown fc.2 fc.1 ∈
        (files.filter (fun f => endsWithStr f.1 ".md")).map
          (fun f => parseStepMarkdown f.2 f.1) :=
      List.mem_map_of_mem _ (List.mem_filter.2 ⟨hmem, hmd⟩)
    constructor
    · refine hperm.mem_iff.2 ?_
      rw [loadSteps_eq]
      exact List.mem_append_left _ hmdmem
    · intro st hst hid
      have hst' : st ∈ loadSteps files := hperm.mem_iff.1 hst
      rw [loadSteps_eq] at hst'
      rcases List.mem_append.1 hst' with h | h
      · rcases List.mem_map.1 h with ⟨g, hg, rfl⟩
        rfl
      · exfalso
        rcases List.mem_map.1 h with ⟨g, hg, rfl⟩
        rcases List.mem_filter.1 hg with ⟨hg1, hg2⟩
        simp only [Bool.not_eq_eq_eq_not, Bool.not_true] at hg2
        have hgnot : extractStepId g.1 ∉
            (((files.filter (fun f => endsWithStr f.1 ".md")).map
              (fun f => parseStepMarkdown f.2 f.1)).map (·.id)) := by
          simpa using hg2
        apply hgnot
        have hidmem : extractStepId fc.1 ∈
            (((files.filter (fun f => endsWithStr f.1 ".md")).map
              (fun f => parseStepMarkdown f.2 f.1)).map (·.id)) :=
          List.mem_map_of_mem _ hmdmem
        have hids : (parseStepHTML g.2 g.1).id = extractStepId g.1 := rfl
        rw [← hids, hid]
        exact hidmem
  · intro h1 h2
    have hmap : List.Perm ((loadConfiguration files).map (·.id))
        ((loadSteps files).map (·.id)) := hperm.map _
    rw [hmap.nodup_iff, loadSteps_eq, List.map_append]
    refine List.Nodup.append ?_ ?_ ?_
    · rw [mdSteps_ids]
      exact h1
    · rw [List.map_map]
      have hsub : List.Sublist
          (((files.filter (fun f => endsWithStr f.1 ".html")).filter
            (fun f => !(((files.filter (fun f => endsWithStr f.1 ".md")).map
                (fun f => parseStepMarkdown f.2 f.1)).map (·.id)).contains
              (extractStepId f.1))).map (fun f => extractStepId f.1))
          (htmlIdsOf files) :=
        List.Sublist.map _ (List.filter_sublist _)
      exact List.Nodup.sublist hsub h2
    · intro a ha hb
      rcases List.mem_map.1 hb with ⟨st, hst, rfl⟩
      rcases List.mem_map.1 hst with ⟨g, hg, rfl⟩
      rcases List.mem_filter.1 hg with ⟨_, hg2⟩
      simp only [Bool.not_eq_eq_eq_not, Bool.not_true] at hg2
      have hgnot : extractStepId g.1 ∉
          (((files.filter (fun f => endsWithStr f.1 ".md")).map
            (fun f => parseStepMarkdown f.2 f.1)).map (·.id)) := by
        simpa using hg2
      exact hgnot ha

/-- Witness for C6 (amended): with a markdown and a markup document both
deriving id 2, the markdown record is among the loaded steps and the
loaded ids are pairwise distinct (so there is exactly one record for
id 2). -/
theorem loadConfiguration_markdown_precedence_witness :
    parseStepMarkdown "# Md Two\n\n**Step 2 of 3** | **Required Step**\n"
        "step-2-x.md" ∈ loadConfiguration mdHtmlPairFiles ∧
    ((loadConfiguration mdHtmlPairFiles).map (·.id)).Nodup :=
  have h := loadConfiguration_sorted_markdown_precedence mdHtmlPairFiles
  ⟨(h.2.1 ("step-2-x.md", "# Md Two\n\n**Step 2 of 3** | **Required Step**\n")
      (by decide) (by decide)).1,
   h.2.2 (by decide) (by decide)⟩

end Onboarding
